import Mathlib

/-!
Verification development for `streamsafe-filter.py`, a two-pass streaming
classifier for tabular workbooks.  The Python source is shallowly embedded:
cells are an inductive type covering the value kinds openpyxl produces
(`None`, text, numbers, booleans, datetimes), rows are lists of cells, and
each pass is a pure function over a workbook given as a list of named
tables.  Machine floats are modelled by `ℚ`; every comparison the program
performs on distances is order-theoretic, so the rational model agrees with
the float semantics on all inputs considered here.
-/

set_option maxRecDepth 4000

namespace StreamSafe

/-- A cell value as produced by openpyxl with `values_only=True`:
a string, a number, a boolean, or a datetime.  `Cell` below adds `none`
for empty cells. -/
inductive CellVal where
  | str (s : String)
  | num (q : ℚ)
  | bool (b : Bool)
  | date
deriving DecidableEq, Repr

/-- A cell: `none` models Python `None` (an empty cell). -/
abbrev Cell := Option CellVal

/-- A row as yielded by `iter_rows(values_only=True)`: an ordered tuple of
cells; trailing empty cells may simply be absent (shorter list). -/
abbrev Row := List Cell

/-- A table: first row (if any) is the header, the rest are data rows. -/
abbrev Table := List Row

/-- A workbook: named tables in order. -/
abbrev Workbook := List (String × Table)

/-! ## String primitives modelling the Python built-ins used by the code -/

/-- Whether `p` is a prefix of `s` (on character lists). -/
def hasPre : List Char → List Char → Bool
  | _, [] => true
  | [], _ :: _ => false
  | c :: cs, p :: ps => c == p && hasPre cs ps

/-- Whether `p` occurs as a contiguous sublist of `s`; models Python
`p in s` on strings (the empty pattern matches everything). -/
def containsList (p : List Char) : List Char → Bool
  | [] => p.isEmpty
  | c :: cs => hasPre (c :: cs) p || containsList p cs

/-- `containsStr s pat` models Python `pat in s`. -/
def containsStr (s pat : String) : Bool :=
  containsList pat.data s.data

/-- `strTake s n` models Python slicing `s[:n]`. -/
def strTake (s : String) (n : Nat) : String :=
  ⟨s.data.take n⟩

/-- `strLower` models Python `s.lower()` (ASCII case folding, which is all
the data at hand exercises). -/
def strLower (s : String) : String :=
  ⟨s.data.map Char.toLower⟩

/-- `pyStrip` models Python `s.strip()`: remove leading and trailing
whitespace. -/
def pyStrip (s : String) : String :=
  ⟨((s.data.dropWhile Char.isWhitespace).reverse.dropWhile
      Char.isWhitespace).reverse⟩

/-- Models Python `str(v)` on a non-`None` cell value.  Strings are
returned unchanged.  The renderings of numbers and datetimes are
abstracted (they never contain letters that could satisfy any of the
program's substring tests, and the claims never depend on their exact
digits). -/
def pyStr : CellVal → String
  | .str s => s
  | .num q => toString q
  | .bool b => if b then "True" else "False"
  | .date => "datetime"

/-! ## Python `float(...)` on strings: a decimal-literal parser.

Models `float(s)` for ordinary decimal literals: optional sign, digits
with an optional decimal point (at least one digit overall), and an
optional exponent part.  Inputs outside this grammar are rejected
(`none`). -/

/-- Split a character list on a separator character (the shape Python
`s.split(sep)` produces: `n` separators give `n + 1` pieces). -/
def splitOnChar (sep : Char) : List Char → List (List Char)
  | [] => [[]]
  | c :: cs =>
    if c = sep then [] :: splitOnChar sep cs
    else
      match splitOnChar sep cs with
      | [] => [[c]]
      | h :: t => (c :: h) :: t

/-- The numeric value of a digit list, `none` unless it is a non-empty run
of decimal digits. -/
def parseNatDigits (l : List Char) : Option Nat :=
  if l ≠ [] ∧ l.all Char.isDigit then
    some (l.foldl (fun a c => a * 10 + (c.toNat - 48)) 0)
  else none

/-- Unsigned mantissa: `digits`, `digits.digits`, `digits.` or `.digits`
(at least one digit in total). -/
def parseMantissa (l : List Char) : Option ℚ :=
  match splitOnChar '.' l with
  | [a] => (parseNatDigits a).map (fun n => (n : ℚ))
  | [a, b] =>
      if (a.length + b.length > 0) ∧ a.all Char.isDigit ∧ b.all Char.isDigit
      then
        some ((a.foldl (fun x c => x * 10 + (c.toNat - 48)) 0 : ℚ)
          + (b.foldl (fun x c => x * 10 + (c.toNat - 48)) 0 : ℚ)
            / 10 ^ b.length)
      else none
  | _ => none

/-- Strip an optional leading sign, reporting whether it was `-`. -/
def stripSign : List Char → Bool × List Char
  | '-' :: r => (true, r)
  | '+' :: r => (false, r)
  | r => (false, r)

/-- Signed integer exponent. -/
def parseExpInt (l : List Char) : Option Int :=
  let (neg, t) := stripSign l
  (parseNatDigits t).map fun n => if neg then -(n : Int) else (n : Int)

/-- `pyFloatStr s` models Python `float(s)` on an already-stripped string
holding a decimal literal. -/
def pyFloatStr (s : String) : Option ℚ :=
  let (neg, t) := stripSign s.data
  let t := t.map Char.toLower
  let signed : ℚ → ℚ := fun q => if neg then -q else q
  match splitOnChar 'e' t with
  | [m] => (parseMantissa m).map signed
  | [m, e] =>
      match parseMantissa m, parseExpInt e with
      | some q, some ex =>
          some (signed (if 0 ≤ ex then q * 10 ^ ex.toNat
                        else q / 10 ^ (-ex).toNat))
      | _, _ => none
  | _ => none

/-- Models the guarded distance-parsing block (source lines 217–226):
`float(None)` and `float(datetime)` raise (caught, `none`); strings are
stripped then parsed; ints and floats convert directly; Python booleans
are instances of `int`, so `float(True) = 1.0` and `float(False) = 0.0`. -/
def pyFloat : Cell → Option ℚ
  | none => none
  | some (.str s) => pyFloatStr (pyStrip s)
  | some (.num q) => some q
  | some (.bool b) => some (if b then 1 else 0)
  | some .date => none

/-! ## Column resolution -/

/-- Source lines 37–43.  The primary distance-column test: the lower-cased
name must contain `"d  istance"` (note: TWO spaces in the source) and at
least one of the four keywords. -/
def is_distance_col_name (colname : String) : Bool :=
  if colname = "" then false
  else
    let cl := strLower colname
    containsStr cl "d  istance" &&
      (containsStr cl "micron" || containsStr cl "edge"
        || containsStr cl "process" || containsStr cl "tissue")

/-- The Python `for idx, colname in enumerate(header): if p colname: break`
scan, carrying the running index. -/
def scanFirst (p : String → Bool) : List String → Nat → Option (Nat × String)
  | [], _ => none
  | c :: cs, i => if p c then some (i, c) else scanFirst p cs (i + 1)

/-- The fallback tier (source lines 159–164): a non-empty name containing
`"distance"` (Python truthiness of the name is tested first). -/
def fallbackDistPred (c : String) : Bool :=
  if c = "" then false else containsStr (strLower c) "distance"

/-- Distance-column detection, source lines 148–168: primary scan with
`is_distance_col_name`, then the fallback scan; `none` means the sheet is
skipped. -/
def findDistIdx (hs : List String) : Option (Nat × String) :=
  match scanFirst is_distance_col_name hs 0 with
  | some r => some r
  | none => scanFirst fallbackDistPred hs 0

/-- `lc_to_idx` construction plus lookup (source lines 87, 139, 173):
a dict comprehension keyed by the lower-cased header name, so on duplicate
keys the later position wins; `lcIdx hs key` is `lc_to_idx.get(key)`. -/
def lcIdx (hs : List String) (key : String) : Option Nat :=
  hs.enum.foldl (fun acc p => if strLower p.2 = key then some p.1 else acc) none

/-- Header normalization, source lines 86 and 138:
`str(h).strip() if h is not None else ""`. -/
def normHeader (hrow : Row) : List String :=
  hrow.map fun c =>
    match c with
    | none => ""
    | some v => pyStrip (pyStr v)

/-- A list of header strings re-injected as a row of string cells, as
`ws.append(header)` writes it. -/
def headerRow (hs : List String) : Row :=
  hs.map fun s => some (.str s)

/-! ## Name allocation (source lines 46–59) -/

/-- Excel sheet name limit. -/
def MAX_SHEETNAME : Nat := 31

/-- The candidate name for suffix index `i`:
`base[:MAX_SHEETNAME - len(suffix)] + suffix` with `suffix = "_" + str i`. -/
def suffixName (b : String) (i : Nat) : String :=
  strTake b (MAX_SHEETNAME - ("_" ++ toString i).length) ++ ("_" ++ toString i)

/-- The `for i in range(2, 999)` search: `fuel` counts the remaining
iterations, `i` is the current suffix index. -/
def findSuffix (b : String) (used : List String) : Nat → Nat → Option String
  | 0, _ => none
  | fuel + 1, i =>
      let name := suffixName b i
      if name ∈ used then findSuffix b used fuel (i + 1) else some name

/-- `unique_name(base, used)`, source lines 48–59.  The Python version
mutates the `used` set and raises `RuntimeError` on exhaustion; here the
updated registry is returned alongside the name, and `none` models the
raised error. -/
def unique_name (base : String) (used : List String) :
    Option (String × List String) :=
  let b := strTake base MAX_SHEETNAME
  if b ∈ used then
    match findSuffix b used 997 2 with
    | some n => some (n, n :: used)
    | none => none
  else some (b, b :: used)

/-! ## PASS 1 (source lines 75–107) -/

/-- The labels a single sheet contributes to `candidate_labels`, in row
order: rows of sheets with a phenotype column whose phenotype cell is
non-`None`, non-empty after strip, and whose lower-cased form contains
both `"cd4"` and `"foxp3"`; the original trimmed string is collected. -/
def pass1Sheet (tbl : Table) : List String :=
  match tbl with
  | [] => []
  | hrow :: dataRows =>
    match lcIdx (normHeader hrow) "phenotype" with
    | none => []
    | some phIdx =>
      dataRows.filterMap fun row =>
        match row.getD phIdx none with
        | none => none
        | some v =>
          let s := pyStrip (pyStr v)
          if s = "" then none
          else if containsStr (strLower s) "cd4" && containsStr (strLower s) "foxp3"
          then some s
          else none

/-- PASS 1 over the whole workbook.  Python accumulates into a set; the
model keeps the insertion list, whose membership is the set's extension
(exact string membership, so deduplication is by exact equality). -/
def candidate_labels (wb : Workbook) : List String :=
  wb.foldl (fun acc t => acc ++ pass1Sheet t.2) []

/-! ## PASS 2 (source lines 120–249) -/

/-- Target classification, source lines 205–214: exact membership in the
vocabulary when it is non-empty (Python `if candidate_labels:`), otherwise
the case-insensitive dual-substring fallback. -/
def targetMatch (vocab : List String) (phen : String) : Bool :=
  match vocab with
  | [] => containsStr (strLower phen) "cd4" && containsStr (strLower phen) "foxp3"
  | _ :: _ => decide (phen ∈ vocab)

/-- The guarded distance read `row[dist_idx]` inside the `try` block: an
out-of-range index raises `IndexError`, which the `except` swallows, so it
is folded into the `none` (skip) outcome together with parse failure. -/
def tryDist (row : Row) (i : Nat) : Option ℚ :=
  match row.get? i with
  | none => none
  | some c => pyFloat c

/-- Errors that escape the row loop and abort the run. -/
inductive Err where
  | indexErr
  | nameExhaustion
deriving DecidableEq, Repr

/-- What the source's row loop (lines 191–249) decides for one row:
`skip` (one of the `continue` branches), `routed within subtype`
(appended to the within/outside bucket, and possibly to a subtype sheet),
or `err` for the uncaught `IndexError` raised by the unguarded
`row[sample_idx]` on line 238 when the row is shorter than the
sample-name index. -/
inductive RowOut where
  | skip
  | routed (within : Bool) (subtype : Option String)
  | err
deriving DecidableEq, Repr

/-- The exact Sample Name → Subtype mapping (source lines 26–34). -/
def sample_to_subtype : List (String × String) :=
  [("8F_morph", "morpheaform"),
   ("10A_meta", "meta"),
   ("2D_inf", "infiltrative"),
   ("5F_micro", "micronodular"),
   ("8D_mix", "mixed (NI)"),
   ("9A_nod", "nodular"),
   ("4B_super", "superficial")]

/-- One row of the PASS 2 loop, source lines 191–249, up to the routing
decision.  Mirrors the source order: empty-row skip; guarded phenotype
read (`row[ph_idx] if ph_idx < len(row) else None`); strip/empty skip;
target match; guarded distance parse; range test; then the *unguarded*
`row[sample_idx]` and the subtype lookup. -/
def processRow (phIdx distIdx : Nat) (sampleIdx : Option Nat)
    (vocab : List String) (row : Row) : RowOut :=
  if row.all Option.isNone then .skip
  else
    match row.getD phIdx none with
    | none => .skip
    | some v =>
      let phen := pyStrip (pyStr v)
      if phen = "" then .skip
      else if targetMatch vocab phen = false then .skip
      else
        match tryDist row distIdx with
        | none => .skip
        | some d =>
          let w := decide (-100 ≤ d ∧ d ≤ 100)
          match sampleIdx with
          | none => .routed w none
          | some si =>
            match row.get? si with
            | none => .err
            | some none => .routed w none
            | some (some sv) =>
                .routed w (List.lookup (pyStrip (pyStr sv)) sample_to_subtype)

/-- The mutable state of PASS 2 while streaming one sheet: the rows so far
appended to the within/outside buckets (headers excluded, they are added
at sheet creation), the lazily created subtype sheets as
`(subtype, sheetName, rows)` triples in creation order (rows include the
header), and the global name registry. -/
structure P2State where
  withinRows : List Row
  outsideRows : List Row
  subs : List (String × String × List Row)
  used : List String
deriving DecidableEq, Repr

/-- `subtype_sheets[subtype].append(list(row))` on an existing sheet. -/
def appendToSub (subs : List (String × String × List Row)) (k : String)
    (row : Row) : List (String × String × List Row) :=
  subs.map fun e => if e.1 = k then (e.1, e.2.1, e.2.2 ++ [row]) else e

/-- One iteration of the PASS 2 row loop as a state transformer
(source lines 191–249): the routing appends of lines 229–232 followed by
the subtype handling of lines 236–249, with the two fatal outcomes
(`IndexError` from line 238, `RuntimeError` from `unique_name`)
propagated as errors. -/
def stepRow (sheetname : String) (header : List String)
    (phIdx distIdx : Nat) (sampleIdx : Option Nat) (vocab : List String)
    (st : P2State) (row : Row) : Except Err P2State :=
  match processRow phIdx distIdx sampleIdx vocab row with
  | .skip => .ok st
  | .err => .error .indexErr
  | .routed w sub =>
    let st1 :=
      if w then { st with withinRows := st.withinRows ++ [row] }
      else { st with outsideRows := st.outsideRows ++ [row] }
    match sub with
    | none => .ok st1
    | some subtype =>
      match st1.subs.find? (fun e => e.1 == subtype) with
      | some _ => .ok { st1 with subs := appendToSub st1.subs subtype row }
      | none =>
        match unique_name (sheetname ++ "_" ++ subtype) st1.used with
        | none => .error .nameExhaustion
        | some (nm, used') =>
            .ok { st1 with
                  subs := st1.subs ++ [(subtype, nm, [headerRow header, row])],
                  used := used' }

/-- The output sheets PASS 2 generates for one input sheet: the two range
buckets (rows include the header row first) and the subtype sheets in
creation order. -/
structure SheetGroup where
  withinName : String
  withinRows : List Row
  outsideName : String
  outsideRows : List Row
  subs : List (String × String × List Row)
deriving DecidableEq, Repr

/-- PASS 2 for one input sheet, source lines 127–249: header read
(`none` slot of the result means the sheet was skipped), phenotype and
distance column resolution, output-sheet allocation, then the row loop. -/
def processTable (vocab : List String) (used : List String)
    (sheetname : String) (tbl : Table) :
    Except Err (Option SheetGroup × List String) :=
  match tbl with
  | [] => .ok (none, used)
  | hrow :: dataRows =>
    let header := normHeader hrow
    match lcIdx header "phenotype" with
    | none => .ok (none, used)
    | some phIdx =>
      match findDistIdx header with
      | none => .ok (none, used)
      | some (distIdx, _) =>
        let sampleIdx := lcIdx header "sample name"
        match unique_name (sheetname ++ "_CD4_FOXP3_within100") used with
        | none => .error .nameExhaustion
        | some (wname, used1) =>
          match unique_name (sheetname ++ "_CD4_FOXP3_outside100") used1 with
          | none => .error .nameExhaustion
          | some (oname, used2) =>
            (dataRows.foldlM
                (stepRow sheetname header phIdx distIdx sampleIdx vocab)
                ⟨[], [], [], used2⟩).map fun st =>
              (some ⟨wname, headerRow header :: st.withinRows,
                     oname, headerRow header :: st.outsideRows,
                     st.subs⟩,
               st.used)

/-- PASS 2 over the workbook, threading the name registry. -/
def pass2Go (vocab : List String) :
    Workbook → List String → Except Err (List SheetGroup)
  | [], _ => .ok []
  | (nm, tbl) :: rest, used =>
    match processTable vocab used nm tbl with
    | .error e => .error e
    | .ok (none, used') => pass2Go vocab rest used'
    | .ok (some g, used') => (pass2Go vocab rest used').map (g :: ·)

/-- The whole PASS 2 run (registry starts empty, source line 122). -/
def pass2 (wb : Workbook) (vocab : List String) : Except Err (List SheetGroup) :=
  pass2Go vocab wb []

/-! ## Spec-level definitions for refinement comparisons -/

/-- The primary-tier predicate as the (amended) claim words it: the
lower-cased name contains `"d  istance"` and one of the four keywords.
(The source's extra emptiness guard is redundant: an empty name contains
no non-empty pattern.) -/
def claimPrimary (c : String) : Bool :=
  containsStr (strLower c) "d  istance" &&
    (containsStr (strLower c) "micron" || containsStr (strLower c) "edge"
      || containsStr (strLower c) "process" || containsStr (strLower c) "tissue")

/-- The primary-tier predicate exactly as claim C1 states it, with the
single-space token `"d istance"`. -/
def claimPrimaryOneSpace (c : String) : Bool :=
  containsStr (strLower c) "d istance" &&
    (containsStr (strLower c) "micron" || containsStr (strLower c) "edge"
      || containsStr (strLower c) "process" || containsStr (strLower c) "tissue")

/-- First index satisfying a predicate — the claim's "first position
(left to right)", written by plain structural recursion. -/
def firstMatchIdx (p : String → Bool) : List String → Option Nat
  | [] => none
  | c :: cs => if p c then some 0 else (firstMatchIdx p cs).map (· + 1)

/-- The distance resolver as the amended claim words it: first position
satisfying the (two-space) primary tier, else first position whose
lower-cased name contains `"distance"`, else not found. -/
def specResolveDistance (hs : List String) : Option Nat :=
  match firstMatchIdx claimPrimary hs with
  | some i => some i
  | none => firstMatchIdx (fun c => containsStr (strLower c) "distance") hs

/-- The distance resolver exactly as claim C1 states it (single-space
primary token). -/
def claimResolveOneSpace (hs : List String) : Option Nat :=
  match firstMatchIdx claimPrimaryOneSpace hs with
  | some i => some i
  | none => firstMatchIdx (fun c => containsStr (strLower c) "distance") hs

/-! ## Helper lemmas -/

lemma scanFirst_congr (p q : String → Bool) (h : ∀ c, p c = q c) :
    ∀ (l : List String) (i : Nat), scanFirst p l i = scanFirst q l i := by
  intro l
  induction l with
  | nil => intro i; rfl
  | cons c cs ih =>
      intro i
      simp only [scanFirst, h c]
      by_cases hc : q c = true
      · simp [hc]
      · simp only [Bool.not_eq_true] at hc
        simp [hc, ih]

lemma scanFirst_fst (p : String → Bool) :
    ∀ (l : List String) (i : Nat),
      (scanFirst p l i).map Prod.fst = (firstMatchIdx p l).map (· + i) := by
  intro l
  induction l with
  | nil => intro i; rfl
  | cons c cs ih =>
      intro i
      by_cases hc : p c = true
      · simp [scanFirst, firstMatchIdx, hc]
      · simp only [Bool.not_eq_true] at hc
        simp only [scanFirst, firstMatchIdx, hc, Bool.false_eq_true,
          if_false, ih (i + 1), Option.map_map]
        congr 1
        funext j
        simp only [Function.comp]
        omega

lemma scanFirst_eq_none_iff (p : String → Bool) :
    ∀ (l : List String) (i : Nat),
      scanFirst p l i = none ↔ ∀ c ∈ l, p c = false := by
  intro l
  induction l with
  | nil => intro i; simp [scanFirst]
  | cons c cs ih =>
      intro i
      by_cases hc : p c = true
      · simp [scanFirst, hc]
      · simp only [Bool.not_eq_true] at hc
        simp [scanFirst, hc, ih]

lemma is_distance_col_name_eq_claimPrimary (c : String) :
    is_distance_col_name c = claimPrimary c := by
  by_cases h : c = ""
  · subst h; decide
  · simp [is_distance_col_name, claimPrimary, h]

lemma fallbackDistPred_eq (c : String) :
    fallbackDistPred c = containsStr (strLower c) "distance" := by
  by_cases h : c = ""
  · subst h; decide
  · simp [fallbackDistPred, h]

lemma strTake_length_le (s : String) (n : Nat) : (strTake s n).length ≤ n := by
  have h : (strTake s n).length = (s.data.take n).length := rfl
  rw [h, List.length_take]
  omega

lemma strLen_append (a b : String) : (a ++ b).length = a.length + b.length := by
  cases a with
  | mk da =>
    cases b with
    | mk db =>
      show (da ++ db).length = da.length + db.length
      exact List.length_append da db

lemma toString_nat_length_le (j : Nat) (h : j < 1000) :
    (toString j).length ≤ 3 := by
  have he : toString j = Nat.repr j := rfl
  rw [he]
  exact Nat.repr_length j 3 (by omega) (by norm_num; omega)

lemma suffixName_length_le (b : String) (j : Nat) (h : j < 1000) :
    (suffixName b j).length ≤ 31 := by
  unfold suffixName
  rw [strLen_append]
  have h1 : ("_" ++ toString j).length ≤ 4 := by
    rw [strLen_append]
    have := toString_nat_length_le j h
    have h2 : ("_" : String).length = 1 := rfl
    omega
  have h2 := strTake_length_le b (MAX_SHEETNAME - ("_" ++ toString j).length)
  have h3 : MAX_SHEETNAME = 31 := rfl
  omega

lemma findSuffix_some (b : String) (used : List String) :
    ∀ fuel i n, findSuffix b used fuel i = some n →
      n ∉ used ∧ ∃ j, i ≤ j ∧ j < i + fuel ∧ n = suffixName b j := by
  intro fuel
  induction fuel with
  | zero => intro i n h; simp [findSuffix] at h
  | succ f ih =>
      intro i n h
      simp only [findSuffix] at h
      by_cases hm : suffixName b i ∈ used
      · rw [if_pos hm] at h
        obtain ⟨h1, j, hj1, hj2, hj3⟩ := ih (i + 1) n h
        exact ⟨h1, j, by omega, by omega, hj3⟩
      · rw [if_neg hm] at h
        cases h
        exact ⟨hm, i, le_refl i, by omega, rfl⟩

lemma findSuffix_first (b : String) (used : List String) :
    ∀ fuel i j, i ≤ j → j < i + fuel → suffixName b j ∉ used →
      (∀ k, i ≤ k → k < j → suffixName b k ∈ used) →
      findSuffix b used fuel i = some (suffixName b j) := by
  intro fuel
  induction fuel with
  | zero => intro i j h1 h2; omega
  | succ f ih =>
      intro i j h1 h2 h3 h4
      simp only [findSuffix]
      by_cases hm : suffixName b i ∈ used
      · rw [if_pos hm]
        have hij : i < j := by
          rcases Nat.lt_or_ge i j with h | h
          · exact h
          · have : i = j := by omega
            subst this; exact absurd hm h3
        exact ih (i + 1) j (by omega) (by omega) h3
          (fun k hk1 hk2 => h4 k (by omega) hk2)
      · rw [if_neg hm]
        have hij : i = j := by
          rcases Nat.lt_or_ge i j with h | h
          · exact absurd (h4 i (le_refl i) h) hm
          · omega
        rw [hij]

lemma findSuffix_none_iff (b : String) (used : List String) :
    ∀ fuel i, findSuffix b used fuel i = none ↔
      ∀ j, i ≤ j → j < i + fuel → suffixName b j ∈ used := by
  intro fuel
  induction fuel with
  | zero => intro i; simp [findSuffix]; intro j h1 h2; omega
  | succ f ih =>
      intro i
      simp only [findSuffix]
      by_cases hm : suffixName b i ∈ used
      · rw [if_pos hm, ih (i + 1)]
        constructor
        · intro h j hj1 hj2
          rcases Nat.lt_or_ge i j with hij | hij
          · exact h j (by omega) (by omega)
          · have : j = i := by omega
            subst this; exact hm
        · intro h j hj1 hj2
          exact h j (by omega) (by omega)
      · rw [if_neg hm]
        constructor
        · intro h; cases h
        · intro h
          exact absurd (h i (le_refl i) (by omega)) hm

/-- **C7.** `unique_name` returns the base truncated to 31 characters when
that name is free, registers every returned name (so successive calls
return pairwise distinct names), never returns a name longer than 31
characters or one already registered, returns the first free suffixed name
`_j` (base truncated so the whole fits in 31 characters) when the
truncated base is taken, and fails exactly when the truncated base and all
997 suffixed candidates `_2 … _998` are taken. -/
theorem unique_name_spec (base : String) (used : List String) :
    (strTake base 31 ∉ used →
      unique_name base used = some (strTake base 31, strTake base 31 :: used)) ∧
    (∀ n used', unique_name base used = some (n, used') →
      n ∉ used ∧ used' = n :: used ∧ n.length ≤ 31) ∧
    (∀ j, 2 ≤ j → j ≤ 998 → strTake base 31 ∈ used →
      suffixName (strTake base 31) j ∉ used →
      (∀ k, 2 ≤ k → k < j → suffixName (strTake base 31) k ∈ used) →
      unique_name base used = some (suffixName (strTake base 31) j,
        suffixName (strTake base 31) j :: used)) ∧
    (unique_name base used = none ↔
      strTake base 31 ∈ used ∧
        ∀ j, 2 ≤ j → j ≤ 998 → suffixName (strTake base 31) j ∈ used) := by
  have hMS : MAX_SHEETNAME = 31 := rfl
  refine ⟨?_, ?_, ?_, ?_⟩
  · intro h
    unfold unique_name
    rw [hMS, if_neg h]
  · intro n used' h
    unfold unique_name at h
    rw [hMS] at h
    by_cases hm : strTake base 31 ∈ used
    · rw [if_pos hm] at h
      cases hf : findSuffix (strTake base 31) used 997 2 with
      | none => rw [hf] at h; cases h
      | some n' =>
          rw [hf] at h
          cases h
          obtain ⟨h1, j, hj1, hj2, hj3⟩ := findSuffix_some _ _ _ _ _ hf
          refine ⟨h1, rfl, ?_⟩
          rw [hj3]
          exact suffixName_length_le _ j (by omega)
    · rw [if_neg hm] at h
      cases h
      exact ⟨hm, rfl, strTake_length_le base 31⟩
  · intro j hj1 hj2 hmem hfree hprev
    unfold unique_name
    rw [hMS, if_pos hmem,
      findSuffix_first (strTake base 31) used 997 2 j hj1 (by omega) hfree
        (fun k hk1 hk2 => hprev k hk1 hk2)]
  · unfold unique_name
    rw [hMS]
    by_cases hm : strTake base 31 ∈ used
    · rw [if_pos hm]
      cases hf : findSuffix (strTake base 31) used 997 2 with
      | none =>
          simp only [hm, true_and]
          rw [findSuffix_none_iff] at hf
          constructor
          · intro _ j hj1 hj2
            exact hf j hj1 (by omega)
          · intro _; trivial
      | some n' =>
          simp only [hm, true_and]
          constructor
          · intro h; cases h
          · intro h
            have := (findSuffix_none_iff (strTake base 31) used 997 2).mpr
              (fun j hj1 hj2 => h j hj1 (by omega))
            rw [hf] at this
            cases this
    · rw [if_neg hm]
      constructor
      · intro h; cases h
      · intro h
        exact absurd h.1 hm

/-- Witness for C7: with `"ab"` and `"ab_2"` already registered, the
allocator returns `"ab_3"` and registers it. -/
theorem unique_name_spec_witness :
    unique_name "ab" ["ab", "ab_2"] = some ("ab_3", ["ab_3", "ab", "ab_2"]) := by
  have h := (unique_name_spec "ab" ["ab", "ab_2"]).2.2.1 3
    (by omega) (by omega) (by decide) (by decide)
    (fun k hk1 hk2 => by
      have : k = 2 := by omega
      subst this; decide)
  exact h.trans (by decide)

/-- **C1 (amended).** The distance-column resolver selects the first
position (left to right) whose lower-cased name contains the token
`"d  istance"` (two spaces, as in the source) together with one of
`micron`/`edge`/`process`/`tissue`; only if that primary tier matches no
position does it select the first position whose lower-cased name contains
`"distance"`; it reports `none` exactly when neither tier matches any
position. -/
theorem distance_column_resolution (hs : List String) :
    (findDistIdx hs).map Prod.fst = specResolveDistance hs ∧
    (findDistIdx hs = none ↔
      ∀ c ∈ hs, claimPrimary c = false ∧
        containsStr (strLower c) "distance" = false) := by
  have hp : ∀ c, is_distance_col_name c = claimPrimary c :=
    is_distance_col_name_eq_claimPrimary
  have hf : ∀ c, fallbackDistPred c = containsStr (strLower c) "distance" :=
    fallbackDistPred_eq
  have e1 : scanFirst is_distance_col_name hs 0 = scanFirst claimPrimary hs 0 :=
    scanFirst_congr _ _ hp hs 0
  have e2 : scanFirst fallbackDistPred hs 0 =
      scanFirst (fun c => containsStr (strLower c) "distance") hs 0 :=
    scanFirst_congr _ _ hf hs 0
  constructor
  · unfold findDistIdx specResolveDistance
    rw [e1]
    cases h1 : scanFirst claimPrimary hs 0 with
    | some r =>
        have := scanFirst_fst claimPrimary hs 0
        rw [h1] at this
        simp only [Option.map_some'] at this ⊢
        cases h2 : firstMatchIdx claimPrimary hs with
        | none => rw [h2] at this; simp at this
        | some i =>
            rw [h2] at this
            simp only [Option.map_some', Option.some.injEq] at this
            simpa using this
    | none =>
        have := scanFirst_fst claimPrimary hs 0
        rw [h1] at this
        simp only [Option.map_none'] at this
        cases h2 : firstMatchIdx claimPrimary hs with
        | some i => rw [h2] at this; simp at this
        | none =>
            rw [e2]
            have h3 := scanFirst_fst
              (fun c => containsStr (strLower c) "distance") hs 0
            rw [h3]
            cases h4 : firstMatchIdx
                (fun c => containsStr (strLower c) "distance") hs with
            | none => simp
            | some i => simp
  · unfold findDistIdx
    rw [e1]
    cases h1 : scanFirst claimPrimary hs 0 with
    | some r =>
        constructor
        · intro h; cases h
        · intro h
          have := (scanFirst_eq_none_iff claimPrimary hs 0).mpr
            (fun c hc => (h c hc).1)
          rw [h1] at this
          cases this
    | none =>
        rw [e2, scanFirst_eq_none_iff]
        have h5 := (scanFirst_eq_none_iff claimPrimary hs 0).mp h1
        constructor
        · intro h c hc
          exact ⟨h5 c hc, h c hc⟩
        · intro h c hc
          exact (h c hc).2

/-- Counterexample to C1 as stated: on the header
`["D  istance to edge (micron)"]` the code's resolver picks position 0
via its primary tier (token `"d  istance"`, two spaces), but the claim's
resolver — primary token `"d istance"` with a single space, then fallback
substring `"distance"` — matches no position and reports NotFound. -/
theorem distance_column_resolution_cex :
    findDistIdx ["D  istance to edge (micron)"] =
        some (0, "D  istance to edge (micron)") ∧
      claimResolveOneSpace ["D  istance to edge (micron)"] = none := by
  constructor
  · decide
  · decide

lemma mem_foldl_append {α β : Type} (f : α → List β) (l : List α) (x : β) :
    ∀ acc, (x ∈ l.foldl (fun a t => a ++ f t) acc ↔ x ∈ acc ∨ ∃ t ∈ l, x ∈ f t) := by
  induction l with
  | nil => intro acc; simp
  | cons t ts ih =>
      intro acc
      simp only [List.foldl_cons, ih (acc ++ f t), List.mem_append,
        List.mem_cons]
      constructor
      · rintro ((h | h) | ⟨u, hu, hx⟩)
        · exact Or.inl h
        · exact Or.inr ⟨t, Or.inl rfl, h⟩
        · exact Or.inr ⟨u, Or.inr hu, hx⟩
      · rintro (h | ⟨u, (rfl | hu), hx⟩)
        · exact Or.inl (Or.inl h)
        · exact Or.inl (Or.inr hx)
        · exact Or.inr ⟨u, hu, hx⟩

lemma mem_pass1Sheet (tbl : Table) (s : String) :
    s ∈ pass1Sheet tbl ↔
      ∃ hrow dataRows phIdx, tbl = hrow :: dataRows ∧
        lcIdx (normHeader hrow) "phenotype" = some phIdx ∧
        ∃ row ∈ dataRows, ∃ v, row.getD phIdx none = some v ∧
          s = pyStrip (pyStr v) ∧ s ≠ "" ∧
          containsStr (strLower s) "cd4" = true ∧
          containsStr (strLower s) "foxp3" = true := by
  cases tbl with
  | nil =>
      simp only [pass1Sheet, List.not_mem_nil, false_iff]
      rintro ⟨hrow, dataRows, phIdx, h, _⟩
      cases h
  | cons hrow dataRows =>
      simp only [pass1Sheet]
      cases hph : lcIdx (normHeader hrow) "phenotype" with
      | none =>
          simp only [List.not_mem_nil, false_iff]
          rintro ⟨hrow', dataRows', phIdx, heq, hph', _⟩
          cases heq
          rw [hph] at hph'
          cases hph'
      | some phIdx =>
          rw [List.mem_filterMap]
          constructor
          · rintro ⟨row, hrow_mem, hval⟩
            cases hv : row.getD phIdx none with
            | none => rw [hv] at hval; cases hval
            | some v =>
                rw [hv] at hval
                simp only at hval
                by_cases h1 : pyStrip (pyStr v) = ""
                · rw [if_pos h1] at hval; cases hval
                · rw [if_neg h1] at hval
                  by_cases h2 : (containsStr (strLower (pyStrip (pyStr v))) "cd4"
                      && containsStr (strLower (pyStrip (pyStr v))) "foxp3") = true
                  · rw [if_pos h2] at hval
                    cases hval
                    simp only [Bool.and_eq_true] at h2
                    exact ⟨hrow, dataRows, phIdx, rfl, hph, row, hrow_mem, v, hv,
                      rfl, h1, h2.1, h2.2⟩
                  · rw [if_neg h2] at hval; cases hval
          · rintro ⟨hrow', dataRows', phIdx', heq, hph', row, hrow_mem, v, hv,
              hs, h1, h2, h3⟩
            cases heq
            rw [hph] at hph'
            cases hph'
            refine ⟨row, hrow_mem, ?_⟩
            rw [hv]
            simp only
            rw [hs] at h1 h2 h3 ⊢
            rw [if_neg h1, if_pos (by rw [h2, h3]; rfl)]

/-- **C2.** The Pass-1 vocabulary is exactly the set of trimmed,
original-case phenotype cell strings taken from tables that have a
phenotype column, restricted to non-empty trimmed strings whose
lower-cased form contains both `"cd4"` and `"foxp3"`.  Membership is by
exact string equality of the trimmed value, so differently-capitalized
variants are distinct entries. -/
theorem pass1_vocabulary (wb : Workbook) (s : String) :
    s ∈ candidate_labels wb ↔
      ∃ t ∈ wb, ∃ hrow dataRows phIdx, t.2 = hrow :: dataRows ∧
        lcIdx (normHeader hrow) "phenotype" = some phIdx ∧
        ∃ row ∈ dataRows, ∃ v, row.getD phIdx none = some v ∧
          s = pyStrip (pyStr v) ∧ s ≠ "" ∧
          containsStr (strLower s) "cd4" = true ∧
          containsStr (strLower s) "foxp3" = true := by
  unfold candidate_labels
  rw [mem_foldl_append (fun t => pass1Sheet t.2) wb s []]
  simp only [List.not_mem_nil, false_or]
  constructor
  · rintro ⟨t, ht, hx⟩
    exact ⟨t, ht, (mem_pass1Sheet t.2 s).mp hx⟩
  · rintro ⟨t, ht, hx⟩
    exact ⟨t, ht, (mem_pass1Sheet t.2 s).mpr hx⟩

lemma processRow_skip_of_noTarget
    (phIdx distIdx : Nat) (sampleIdx : Option Nat) (vocab : List String)
    (row : Row) (v : CellVal)
    (hv : row.getD phIdx none = some v)
    (htm : targetMatch vocab (pyStrip (pyStr v)) = false) :
    processRow phIdx distIdx sampleIdx vocab row = .skip := by
  unfold processRow
  by_cases hall : row.all Option.isNone
  · rw [if_pos hall]
  · rw [if_neg hall, hv]
    simp only
    by_cases h1 : pyStrip (pyStr v) = ""
    · rw [if_pos h1]
    · rw [if_neg h1, if_pos htm]

lemma processRow_skip_of_noDist
    (phIdx distIdx : Nat) (sampleIdx : Option Nat) (vocab : List String)
    (row : Row) (hd : tryDist row distIdx = none) :
    processRow phIdx distIdx sampleIdx vocab row = .skip := by
  unfold processRow
  by_cases hall : row.all Option.isNone
  · rw [if_pos hall]
  · rw [if_neg hall]
    cases hv : row.getD phIdx none with
    | none => rfl
    | some v =>
        simp only
        by_cases h1 : pyStrip (pyStr v) = ""
        · rw [if_pos h1]
        · rw [if_neg h1]
          by_cases h2 : targetMatch vocab (pyStrip (pyStr v)) = false
          · rw [if_pos h2]
          · rw [if_neg h2, hd]

lemma processRow_routed_w
    (phIdx distIdx : Nat) (sampleIdx : Option Nat) (vocab : List String)
    (row : Row) (w : Bool) (sub : Option String) (d : ℚ)
    (hpr : processRow phIdx distIdx sampleIdx vocab row = .routed w sub)
    (hd : tryDist row distIdx = some d) :
    w = decide (-100 ≤ d ∧ d ≤ 100) := by
  unfold processRow at hpr
  by_cases hall : row.all Option.isNone
  · rw [if_pos hall] at hpr; cases hpr
  · rw [if_neg hall] at hpr
    cases hv : row.getD phIdx none with
    | none => rw [hv] at hpr; cases hpr
    | some v =>
        rw [hv] at hpr
        simp only at hpr
        by_cases h1 : pyStrip (pyStr v) = ""
        · rw [if_pos h1] at hpr; cases hpr
        · rw [if_neg h1] at hpr
          by_cases h2 : targetMatch vocab (pyStrip (pyStr v)) = false
          · rw [if_pos h2] at hpr; cases hpr
          · rw [if_neg h2, hd] at hpr
            simp only at hpr
            cases sampleIdx with
            | none => cases hpr; rfl
            | some si =>
                simp only at hpr
                cases hsv : row.get? si with
                | none => rw [hsv] at hpr; cases hpr
                | some sc =>
                    rw [hsv] at hpr
                    cases sc with
                    | none => cases hpr; rfl
                    | some sv => cases hpr; rfl

lemma stepRow_routed_fields
    (sheetname : String) (header : List String) (phIdx distIdx : Nat)
    (sampleIdx : Option Nat) (vocab : List String) (row : Row)
    (st st' : P2State) (w : Bool) (sub : Option String)
    (hpr : processRow phIdx distIdx sampleIdx vocab row = .routed w sub)
    (hstep : stepRow sheetname header phIdx distIdx sampleIdx vocab st row
      = .ok st') :
    st'.withinRows = (if w = true then st.withinRows ++ [row]
      else st.withinRows) ∧
    st'.outsideRows = (if w = true then st.outsideRows
      else st.outsideRows ++ [row]) := by
  unfold stepRow at hstep
  rw [hpr] at hstep
  cases w <;>
    simp only [Bool.false_eq_true, eq_self_iff_true, if_true, if_false]
      at hstep ⊢ <;>
  · cases sub with
    | none => cases hstep; exact ⟨rfl, rfl⟩
    | some subtype =>
        simp only at hstep
        split at hstep
        · cases hstep; exact ⟨rfl, rfl⟩
        · split at hstep
          · cases hstep
          · cases hstep; exact ⟨rfl, rfl⟩

/-- **C3.** A row that reaches the classification step is a target exactly
when its trimmed phenotype is an exact (case-sensitive) member of the
non-empty vocabulary, or — when the vocabulary is empty — when its
lower-cased trimmed phenotype contains both `"cd4"` and `"foxp3"`;
a non-target row changes no output state at all. -/
theorem target_classification (vocab : List String) (phen : String) :
    (targetMatch vocab phen = true ↔
      ((vocab ≠ [] ∧ phen ∈ vocab) ∨
        (vocab = [] ∧ containsStr (strLower phen) "cd4" = true ∧
          containsStr (strLower phen) "foxp3" = true))) ∧
    (∀ (sheetname : String) (header : List String) (phIdx distIdx : Nat)
        (sampleIdx : Option Nat) (st : P2State) (row : Row) (v : CellVal),
      row.getD phIdx none = some v → phen = pyStrip (pyStr v) →
      targetMatch vocab phen = false →
      stepRow sheetname header phIdx distIdx sampleIdx vocab st row = .ok st) := by
  constructor
  · cases vocab with
    | nil =>
        simp only [targetMatch, Bool.and_eq_true, ne_eq, not_true_eq_false,
          false_and, false_or, true_and]
    | cons a as =>
        simp only [targetMatch, decide_eq_true_eq, ne_eq,
          reduceCtorEq, not_false_eq_true, true_and, false_and, or_false]
  · intro sheetname header phIdx distIdx sampleIdx st row v hv hphen htm
    rw [hphen] at htm
    have hpr := processRow_skip_of_noTarget phIdx distIdx sampleIdx vocab
      row v hv htm
    unfold stepRow
    rw [hpr]

/-- Witness for C3: `"CD4/FOXP3"` matches the non-empty vocabulary
exactly, and a `"CD8"` row leaves the state untouched. -/
theorem target_classification_witness :
    targetMatch ["CD4/FOXP3"] "CD4/FOXP3" = true ∧
    stepRow "S" [] 0 1 none ["CD4/FOXP3"] ⟨[], [], [], []⟩
      [some (.str "CD8"), some (.num 50)] = .ok ⟨[], [], [], []⟩ := by
  constructor
  · exact (target_classification ["CD4/FOXP3"] "CD4/FOXP3").1.mpr
      (Or.inl ⟨by decide, by decide⟩)
  · exact (target_classification ["CD4/FOXP3"] "CD8").2 "S" [] 0 1 none
      ⟨[], [], [], []⟩ [some (.str "CD8"), some (.num 50)]
      (CellVal.str "CD8") (by decide) (by decide) (by decide)

/-- **C4.** A target row whose distance parsed to `d` is appended to the
within-bucket exactly when `-100 ≤ d ≤ 100` and to the outside-bucket
otherwise — never both, never neither.  (`d = 100` and `d = -100`
therefore go within; `d = 100.0001` and `d = -100.0001` go outside.) -/
theorem range_routing
    (sheetname : String) (header : List String) (phIdx distIdx : Nat)
    (sampleIdx : Option Nat) (vocab : List String) (row : Row)
    (st st' : P2State) (d : ℚ) (w : Bool) (sub : Option String)
    (hpr : processRow phIdx distIdx sampleIdx vocab row = .routed w sub)
    (hd : tryDist row distIdx = some d)
    (hstep : stepRow sheetname header phIdx distIdx sampleIdx vocab st row
      = .ok st') :
    (w = true ↔ (-100 ≤ d ∧ d ≤ 100)) ∧
    ((-100 ≤ d ∧ d ≤ 100) →
      st'.withinRows = st.withinRows ++ [row] ∧
        st'.outsideRows = st.outsideRows) ∧
    (¬(-100 ≤ d ∧ d ≤ 100) →
      st'.outsideRows = st.outsideRows ++ [row] ∧
        st'.withinRows = st.withinRows) := by
  have hw := processRow_routed_w phIdx distIdx sampleIdx vocab row w sub d
    hpr hd
  have hfields := stepRow_routed_fields sheetname header phIdx distIdx
    sampleIdx vocab row st st' w sub hpr hstep
  refine ⟨?_, ?_, ?_⟩
  · rw [hw]; exact decide_eq_true_iff
  · intro hin
    have hwt : w = true := by rw [hw]; exact decide_eq_true hin
    rw [hwt] at hfields
    simpa using ⟨hfields.1, hfields.2⟩
  · intro hout
    have hwf : w = false := by
      rw [hw]; exact decide_eq_false hout
    rw [hwf] at hfields
    simpa using ⟨hfields.2, hfields.1⟩

/-- Witness for C4: a row with distance exactly 100 is routed to the
within-bucket and the outside-bucket is untouched. -/
theorem range_routing_witness :
    (true = true ↔ ((-100 : ℚ) ≤ 100 ∧ (100 : ℚ) ≤ 100)) ∧
    (⟨[[some (.str "CD4/FOXP3"), some (.num 100)]], [], [], []⟩ : P2State).withinRows
      = [] ++ [[some (.str "CD4/FOXP3"), some (.num 100)]] := by
  have h := range_routing "S" [] 0 1 none ["CD4/FOXP3"]
    [some (.str "CD4/FOXP3"), some (.num 100)]
    ⟨[], [], [], []⟩ ⟨[[some (.str "CD4/FOXP3"), some (.num 100)]], [], [], []⟩
    100 true none (by decide) (by decide) rfl
  exact ⟨h.1, (h.2.1 (by norm_num)).1⟩

/-- **C5 (amended).** Distance parsing accepts numeric cells directly,
accepts boolean cells as 1/0 (Python booleans are `int` instances, so
`float(True)` succeeds), accepts string cells by stripping and parsing as
a decimal number, and rejects `None` and datetime cells and unparsable
strings; a target row whose distance cell does not parse is silently
skipped — it changes no output state and the run continues. -/
theorem distance_parse_leniency :
    (∀ q : ℚ, pyFloat (some (.num q)) = some q) ∧
    (∀ b : Bool, pyFloat (some (.bool b)) = some (if b then 1 else 0)) ∧
    (∀ s : String, pyFloat (some (.str s)) = pyFloatStr (pyStrip s)) ∧
    pyFloat none = none ∧
    pyFloat (some .date) = none ∧
    (∀ (sheetname : String) (header : List String) (phIdx distIdx : Nat)
        (sampleIdx : Option Nat) (vocab : List String) (st : P2State)
        (row : Row),
      tryDist row distIdx = none →
      stepRow sheetname header phIdx distIdx sampleIdx vocab st row = .ok st) := by
  refine ⟨fun q => rfl, fun b => rfl, fun s => rfl, rfl, rfl, ?_⟩
  intro sheetname header phIdx distIdx sampleIdx vocab st row hd
  have hpr := processRow_skip_of_noDist phIdx distIdx sampleIdx vocab row hd
  unfold stepRow
  rw [hpr]

/-- Witness for C5: a target row whose distance cell is the unparsable
string `"nonsense"` leaves the state untouched. -/
theorem distance_parse_leniency_witness :
    stepRow "S" [] 0 1 none [] ⟨[], [], [], []⟩
      [some (.str "CD4 FOXP3"), some (.str "nonsense")] = .ok ⟨[], [], [], []⟩ :=
  distance_parse_leniency.2.2.2.2.2 "S" [] 0 1 none [] ⟨[], [], [], []⟩
    [some (.str "CD4 FOXP3"), some (.str "nonsense")] (by decide)

/-- Counterexample to C5 as stated: a boolean distance cell is *not*
skipped — Python treats `bool` as numeric, so the row parses to distance 1
and is routed to the within-bucket. -/
theorem distance_parse_leniency_cex :
    pyFloat (some (.bool true)) = some 1 ∧
    processRow 0 1 none ["CD4 FOXP3"]
      [some (.str "CD4 FOXP3"), some (.bool true)] = .routed true none :=
  ⟨rfl, by decide⟩

/-! ## Fold invariants for PASS 2 -/

lemma foldlM_except_inv {σ α : Type} (step : σ → α → Except Err σ)
    (P : σ → Prop) (l : List α) :
    ∀ (s s' : σ), (∀ x ∈ l, ∀ t t', P t → step t x = .ok t' → P t') →
      P s → l.foldlM step s = .ok s' → P s' := by
  induction l with
  | nil =>
      intro s s' _ hP h
      simp only [List.foldlM_nil] at h
      cases h
      exact hP
  | cons x xs ih =>
      intro s s' hstep hP h
      simp only [List.foldlM_cons] at h
      cases hx : step s x with
      | error e =>
          rw [hx] at h
          cases h
      | ok s1 =>
          rw [hx] at h
          have hP1 := hstep x (List.mem_cons_self x xs) s s1 hP hx
          exact ih s1 s' (fun y hy => hstep y (List.mem_cons_of_mem x hy)) hP1 h

/-- The shape invariant PASS 2 maintains while streaming one sheet: every
bucketed row is one of the sheet's data rows, and every subtype sheet is
its header followed by data rows. -/
def RowsInv (header : List String) (dataRows : List Row) (st : P2State) : Prop :=
  (∀ r ∈ st.withinRows, r ∈ dataRows) ∧
  (∀ r ∈ st.outsideRows, r ∈ dataRows) ∧
  (∀ e ∈ st.subs, ∃ rs, e.2.2 = headerRow header :: rs ∧ ∀ r ∈ rs, r ∈ dataRows)

lemma appendToSub_inv (header : List String) (dataRows : List Row)
    (subs : List (String × String × List Row)) (k : String) (row : Row)
    (hrow : row ∈ dataRows)
    (h : ∀ e ∈ subs, ∃ rs, e.2.2 = headerRow header :: rs ∧
      ∀ r ∈ rs, r ∈ dataRows) :
    ∀ e ∈ appendToSub subs k row, ∃ rs, e.2.2 = headerRow header :: rs ∧
      ∀ r ∈ rs, r ∈ dataRows := by
  intro e he
  unfold appendToSub at he
  rw [List.mem_map] at he
  obtain ⟨e0, he0, heq⟩ := he
  obtain ⟨rs, hrs, hmem⟩ := h e0 he0
  by_cases hk : e0.1 = k
  · rw [if_pos hk] at heq
    subst heq
    refine ⟨rs ++ [row], ?_, ?_⟩
    · simp only [hrs, List.cons_append]
    · intro r hr
      rcases List.mem_append.mp hr with hr | hr
      · exact hmem r hr
      · rw [List.mem_singleton.mp hr]; exact hrow
  · rw [if_neg hk] at heq
    subst heq
    exact ⟨rs, hrs, hmem⟩

lemma stepRow_preserves_RowsInv
    (sheetname : String) (header : List String) (phIdx distIdx : Nat)
    (sampleIdx : Option Nat) (vocab : List String) (dataRows : List Row)
    (row : Row) (hrow : row ∈ dataRows) (st st' : P2State)
    (hP : RowsInv header dataRows st)
    (hstep : stepRow sheetname header phIdx distIdx sampleIdx vocab st row
      = .ok st') :
    RowsInv header dataRows st' := by
  obtain ⟨hw, ho, hs⟩ := hP
  unfold stepRow at hstep
  cases hpr : processRow phIdx distIdx sampleIdx vocab row with
  | skip => rw [hpr] at hstep; cases hstep; exact ⟨hw, ho, hs⟩
  | err => rw [hpr] at hstep; cases hstep
  | routed w sub =>
      rw [hpr] at hstep
      simp only at hstep
      have key : ∀ st1 : P2State, RowsInv header dataRows st1 →
          (match sub with
            | none => Except.ok st1
            | some subtype =>
              match st1.subs.find? (fun e => e.1 == subtype) with
              | some _ =>
                  Except.ok { st1 with subs := appendToSub st1.subs subtype row }
              | none =>
                  match unique_name (sheetname ++ "_" ++ subtype) st1.used with
                  | none => Except.error Err.nameExhaustion
                  | some (nm, used') =>
                      Except.ok { st1 with
                        subs := st1.subs ++ [(subtype, nm,
                          [headerRow header, row])],
                        used := used' }) = Except.ok st' →
          RowsInv header dataRows st' := by
        intro st1 hP1 hm
        obtain ⟨hw1, ho1, hs1⟩ := hP1
        cases sub with
        | none => cases hm; exact ⟨hw1, ho1, hs1⟩
        | some subtype =>
            simp only at hm
            split at hm
            · cases hm
              exact ⟨hw1, ho1, appendToSub_inv header dataRows st1.subs
                subtype row hrow hs1⟩
            · split at hm
              · cases hm
              · cases hm
                refine ⟨hw1, ho1, ?_⟩
                intro e he
                rcases List.mem_append.mp he with he | he
                · exact hs1 e he
                · rw [List.mem_singleton.mp he]
                  exact ⟨[row], rfl, fun r hr => by
                    rw [List.mem_singleton.mp hr]; exact hrow⟩
      cases w with
      | true =>
          refine key { st with withinRows := st.withinRows ++ [row] }
            ⟨?_, ho, hs⟩ (by simpa using hstep)
          intro r hr
          rcases List.mem_append.mp hr with hr | hr
          · exact hw r hr
          · rw [List.mem_singleton.mp hr]; exact hrow
      | false =>
          refine key { st with outsideRows := st.outsideRows ++ [row] }
            ⟨hw, ?_, hs⟩ (by simpa using hstep)
          intro r hr
          rcases List.mem_append.mp hr with hr | hr
          · exact ho r hr
          · rw [List.mem_singleton.mp hr]; exact hrow

/-- **C6 (amended).** Every output table (within, outside, and each
subtype table) receives as its first row the *normalized* header of its
source table — each header cell stringified and stripped, missing cells
becoming empty strings — and every subsequent row of every output table is
one of the source's data rows copied verbatim (as an ordered list of cell
values, no cell mutated). -/
theorem output_rows_verbatim
    (vocab used : List String) (name : String) (hrow : Row)
    (dataRows : List Row) (grp : SheetGroup) (used' : List String)
    (h : processTable vocab used name (hrow :: dataRows)
      = .ok (some grp, used')) :
    (∃ ws, grp.withinRows = headerRow (normHeader hrow) :: ws ∧
      ∀ r ∈ ws, r ∈ dataRows) ∧
    (∃ os, grp.outsideRows = headerRow (normHeader hrow) :: os ∧
      ∀ r ∈ os, r ∈ dataRows) ∧
    (∀ e ∈ grp.subs, ∃ rs, e.2.2 = headerRow (normHeader hrow) :: rs ∧
      ∀ r ∈ rs, r ∈ dataRows) := by
  unfold processTable at h
  simp only at h
  cases hph : lcIdx (normHeader hrow) "phenotype" with
  | none => rw [hph] at h; cases h
  | some phIdx =>
      rw [hph] at h
      cases hdist : findDistIdx (normHeader hrow) with
      | none => rw [hdist] at h; cases h
      | some r =>
          rw [hdist] at h
          cases r with
          | mk distIdx dn =>
              simp only at h
              cases hu1 : unique_name (name ++ "_CD4_FOXP3_within100") used with
              | none => rw [hu1] at h; cases h
              | some p1 =>
                  rw [hu1] at h
                  cases p1 with
                  | mk wname used1 =>
                      simp only at h
                      cases hu2 : unique_name (name ++ "_CD4_FOXP3_outside100")
                          used1 with
                      | none => rw [hu2] at h; cases h
                      | some p2 =>
                          rw [hu2] at h
                          cases p2 with
                          | mk oname used2 =>
                              simp only at h
                              cases hfold : dataRows.foldlM
                                  (stepRow name (normHeader hrow) phIdx distIdx
                                    (lcIdx (normHeader hrow) "sample name")
                                    vocab)
                                  ⟨[], [], [], used2⟩ with
                              | error e => rw [hfold] at h; cases h
                              | ok stf =>
                                  rw [hfold] at h
                                  simp only [Except.map] at h
                                  cases h
                                  have hinv : RowsInv (normHeader hrow)
                                      dataRows stf := by
                                    refine foldlM_except_inv _ _ dataRows
                                      ⟨[], [], [], used2⟩ stf ?_ ?_ hfold
                                    · intro x hx t t' hPt hst
                                      exact stepRow_preserves_RowsInv name
                                        (normHeader hrow) phIdx distIdx
                                        (lcIdx (normHeader hrow) "sample name")
                                        vocab dataRows x hx t t' hPt hst
                                    · exact ⟨fun r hr => absurd hr
                                        (List.not_mem_nil r),
                                        fun r hr => absurd hr
                                          (List.not_mem_nil r),
                                        fun e he => absurd he
                                          (List.not_mem_nil e)⟩
                                  exact ⟨⟨stf.withinRows, rfl, hinv.1⟩,
                                    ⟨stf.outsideRows, rfl, hinv.2.1⟩,
                                    hinv.2.2⟩

/-- Witness for C6, applied to a concrete one-row sheet. -/
theorem output_rows_verbatim_witness :
    (∃ ws, ([headerRow ["Phenotype", "D  istance edge micron"],
        [some (.str "CD4 FOXP3"), some (.num 50)]] : List Row)
        = headerRow (normHeader
            [some (.str " Phenotype "), some (.str "D  istance edge micron")])
          :: ws ∧
      ∀ r ∈ ws, r ∈ ([[some (.str "CD4 FOXP3"), some (.num 50)]] : List Row)) := by
  have h := output_rows_verbatim [] [] "S"
    [some (.str " Phenotype "), some (.str "D  istance edge micron")]
    [[some (.str "CD4 FOXP3"), some (.num 50)]]
    ⟨"S_CD4_FOXP3_within100",
      [headerRow ["Phenotype", "D  istance edge micron"],
        [some (.str "CD4 FOXP3"), some (.num 50)]],
      "S_CD4_FOXP3_outside100",
      [headerRow ["Phenotype", "D  istance edge micron"]], []⟩
    ["S_CD4_FOXP3_outside100", "S_CD4_FOXP3_within100"] rfl
  exact h.1

/-- Counterexample to C6 as stated: the first row written to each output
is the *normalized* header, not the source header row — here the source
header cell `" Phenotype "` is stripped to `"Phenotype"`, so the output's
first row differs from the source table's header row. -/
theorem output_rows_verbatim_cex :
    processTable [] [] "S"
        [[some (.str " Phenotype "), some (.str "D  istance edge micron")],
         [some (.str "CD4 FOXP3"), some (.num 50)]]
      = .ok (some ⟨"S_CD4_FOXP3_within100",
          [headerRow ["Phenotype", "D  istance edge micron"],
            [some (.str "CD4 FOXP3"), some (.num 50)]],
          "S_CD4_FOXP3_outside100",
          [headerRow ["Phenotype", "D  istance edge micron"]], []⟩,
         ["S_CD4_FOXP3_outside100", "S_CD4_FOXP3_within100"]) ∧
    headerRow ["Phenotype", "D  istance edge micron"] ≠
      [some (.str " Phenotype "), some (.str "D  istance edge micron")] :=
  ⟨rfl, by decide⟩

/-- **C8.** A table with an empty header (no rows at all), a missing
phenotype column, or no distance column found by either heuristic tier is
skipped without aborting: `processTable` succeeds with no output group and
an unchanged name registry, and the run continues with the next table
exactly as if the skipped one were absent. -/
theorem table_skipping (vocab used : List String) (name : String)
    (tbl : Table) :
    (tbl = [] → processTable vocab used name tbl = .ok (none, used)) ∧
    (∀ hrow rest, tbl = hrow :: rest →
      lcIdx (normHeader hrow) "phenotype" = none →
      processTable vocab used name tbl = .ok (none, used)) ∧
    (∀ hrow rest, tbl = hrow :: rest →
      findDistIdx (normHeader hrow) = none →
      processTable vocab used name tbl = .ok (none, used)) ∧
    (∀ rest : Workbook, processTable vocab used name tbl = .ok (none, used) →
      pass2Go vocab ((name, tbl) :: rest) used = pass2Go vocab rest used) := by
  refine ⟨?_, ?_, ?_, ?_⟩
  · intro h; subst h; rfl
  · intro hrow rest heq hph
    subst heq
    unfold processTable
    simp only
    rw [hph]
  · intro hrow rest heq hdist
    subst heq
    unfold processTable
    simp only
    cases hph : lcIdx (normHeader hrow) "phenotype" with
    | none => rfl
    | some phIdx => rw [hdist]
  · intro rest h
    show (match processTable vocab used name tbl with
      | .error e => .error e
      | .ok (none, used') => pass2Go vocab rest used'
      | .ok (some g, used') => (pass2Go vocab rest used').map (g :: ·))
      = pass2Go vocab rest used
    rw [h]

/-- Witness for C8: a one-row table whose header has no phenotype column
is skipped, and the whole run over just that table produces no outputs. -/
theorem table_skipping_witness :
    processTable [] [] "S" [[some (.str "A")]] = .ok (none, []) ∧
    pass2 [("S", [[some (.str "A")]])] [] = .ok [] := by
  have h := table_skipping [] [] "S" [[some (.str "A")]]
  have h2 := h.2.1 [some (.str "A")] [] rfl (by decide)
  exact ⟨h2, (h.2.2.2 [] h2).trans rfl⟩

lemma subHandle_chr (sheetname : String) (header : List String) (sub : String)
    (row : Row) (st1 st' : P2State)
    (hm : (match List.find? (fun e => e.1 == sub) st1.subs with
      | some _ => Except.ok { st1 with subs := appendToSub st1.subs sub row }
      | none =>
        match unique_name (sheetname ++ "_" ++ sub) st1.used with
        | none => Except.error Err.nameExhaustion
        | some (nm, used') =>
            Except.ok { st1 with
              subs := st1.subs ++ [(sub, nm, [headerRow header, row])],
              used := used' }) = Except.ok st') :
    ((∃ e, List.find? (fun x => x.1 == sub) st1.subs = some e) →
      st'.subs = appendToSub st1.subs sub row ∧ st'.used = st1.used) ∧
    (List.find? (fun x => x.1 == sub) st1.subs = none →
      ∃ nm used',
        unique_name (sheetname ++ "_" ++ sub) st1.used = some (nm, used') ∧
        st'.subs = st1.subs ++ [(sub, nm, [headerRow header, row])] ∧
        st'.used = used') := by
  cases hf : List.find? (fun e => e.1 == sub) st1.subs with
  | some e0 =>
      rw [hf] at hm
      cases hm
      constructor
      · intro _; exact ⟨rfl, rfl⟩
      · intro hnone; cases hnone
  | none =>
      rw [hf] at hm
      cases hun : unique_name (sheetname ++ "_" ++ sub) st1.used with
      | none => rw [hun] at hm; cases hm
      | some p =>
          rw [hun] at hm
          cases p with
          | mk nm used' =>
              cases hm
              constructor
              · rintro ⟨e0, he0⟩
                cases he0
              · intro _
                exact ⟨nm, used', rfl, rfl, rfl⟩

lemma processRow_routed_sub_lookup
    (phIdx distIdx si : Nat) (vocab : List String) (row : Row)
    (w : Bool) (sub : Option String) (sv : CellVal)
    (hpr : processRow phIdx distIdx (some si) vocab row = .routed w sub)
    (hsv : row.get? si = some (some sv)) :
    sub = List.lookup (pyStrip (pyStr sv)) sample_to_subtype := by
  unfold processRow at hpr
  by_cases hall : row.all Option.isNone
  · rw [if_pos hall] at hpr; cases hpr
  · rw [if_neg hall] at hpr
    cases hv : row.getD phIdx none with
    | none => rw [hv] at hpr; cases hpr
    | some v =>
        rw [hv] at hpr
        simp only at hpr
        by_cases h1 : pyStrip (pyStr v) = ""
        · rw [if_pos h1] at hpr; cases hpr
        · rw [if_neg h1] at hpr
          by_cases h2 : targetMatch vocab (pyStrip (pyStr v)) = false
          · rw [if_pos h2] at hpr; cases hpr
          · rw [if_neg h2] at hpr
            cases hd : tryDist row distIdx with
            | none => rw [hd] at hpr; cases hpr
            | some d =>
                rw [hd] at hpr
                simp only at hpr
                rw [hsv] at hpr
                simp only at hpr
                injection hpr with hw hsub
                exact hsub.symm

/-- **C9.** A target row routed to a range bucket whose subtype lookup
succeeded is appended to exactly one of the two range buckets and,
additionally, to the one subtype table for that subtype: if a sheet for
the subtype already exists the row is appended to it (registry untouched),
otherwise the sheet is created lazily with a fresh name, its rows being
exactly the header followed by this row; entries for other subtypes are
unchanged; and the subtype is exactly the subtype-map image of the row's
stripped sample cell. -/
theorem subtype_routing
    (sheetname : String) (header : List String) (phIdx distIdx : Nat)
    (sampleIdx : Option Nat) (vocab : List String) (row : Row)
    (st st' : P2State) (w : Bool) (sub : String)
    (hpr : processRow phIdx distIdx sampleIdx vocab row
      = .routed w (some sub))
    (hstep : stepRow sheetname header phIdx distIdx sampleIdx vocab st row
      = .ok st') :
    (st'.withinRows
        = (if w = true then st.withinRows ++ [row] else st.withinRows) ∧
      st'.outsideRows
        = (if w = true then st.outsideRows else st.outsideRows ++ [row])) ∧
    ((∃ e, List.find? (fun x => x.1 == sub) st.subs = some e) →
      st'.subs = appendToSub st.subs sub row ∧ st'.used = st.used) ∧
    (List.find? (fun x => x.1 == sub) st.subs = none →
      ∃ nm used',
        unique_name (sheetname ++ "_" ++ sub) st.used = some (nm, used') ∧
        st'.subs = st.subs ++ [(sub, nm, [headerRow header, row])] ∧
        st'.used = used') ∧
    (∀ e ∈ st.subs, e.1 ≠ sub → e ∈ st'.subs) ∧
    (∀ (si : Nat) (sv : CellVal), sampleIdx = some si →
      row.get? si = some (some sv) →
      some sub = List.lookup (pyStrip (pyStr sv)) sample_to_subtype) := by
  have hfields := stepRow_routed_fields sheetname header phIdx distIdx
    sampleIdx vocab row st st' w (some sub) hpr hstep
  unfold stepRow at hstep
  rw [hpr] at hstep
  cases w with
  | true =>
      simp only [eq_self_iff_true, if_true] at hstep
      have hchr := subHandle_chr sheetname header sub row
        { st with withinRows := st.withinRows ++ [row] } st' hstep
      refine ⟨hfields, hchr.1, hchr.2, ?_, ?_⟩
      · intro e he hne
        rcases hfind : List.find? (fun x => x.1 == sub) st.subs with _ | e0
        · obtain ⟨nm, used', _, hsubs, _⟩ := hchr.2 hfind
          rw [hsubs]
          exact List.mem_append_left _ he
        · obtain ⟨hsubs, _⟩ := hchr.1 ⟨e0, hfind⟩
          rw [hsubs]
          unfold appendToSub
          rw [List.mem_map]
          exact ⟨e, he, by rw [if_neg hne]⟩
      · intro si sv hsi hsv
        subst hsi
        exact processRow_routed_sub_lookup phIdx distIdx si vocab row _
          (some sub) sv hpr hsv
  | false =>
      simp only [Bool.false_eq_true, if_false] at hstep
      have hchr := subHandle_chr sheetname header sub row
        { st with outsideRows := st.outsideRows ++ [row] } st' hstep
      refine ⟨hfields, hchr.1, hchr.2, ?_, ?_⟩
      · intro e he hne
        rcases hfind : List.find? (fun x => x.1 == sub) st.subs with _ | e0
        · obtain ⟨nm, used', _, hsubs, _⟩ := hchr.2 hfind
          rw [hsubs]
          exact List.mem_append_left _ he
        · obtain ⟨hsubs, _⟩ := hchr.1 ⟨e0, hfind⟩
          rw [hsubs]
          unfold appendToSub
          rw [List.mem_map]
          exact ⟨e, he, by rw [if_neg hne]⟩
      · intro si sv hsi hsv
        subst hsi
        exact processRow_routed_sub_lookup phIdx distIdx si vocab row _
          (some sub) sv hpr hsv

/-- Witness for C9: the spec scenario row `8F_morph` creates the
`morpheaform` subtype sheet lazily with the header written once. -/
theorem subtype_routing_witness :
    (⟨[[some (.str "CD4/FOXP3"), some (.num 50), some (.str "8F_morph")]], [],
        [("morpheaform", "Sheet1_morpheaform",
          [headerRow ["Phenotype", "D", "Sample Name"],
            [some (.str "CD4/FOXP3"), some (.num 50),
              some (.str "8F_morph")]])],
        ["Sheet1_morpheaform"]⟩ : P2State).subs
      = [] ++ [("morpheaform", "Sheet1_morpheaform",
          [headerRow ["Phenotype", "D", "Sample Name"],
            [some (.str "CD4/FOXP3"), some (.num 50),
              some (.str "8F_morph")]])] := by
  have h := subtype_routing "Sheet1" ["Phenotype", "D", "Sample Name"] 0 1
    (some 2) ["CD4/FOXP3"]
    [some (.str "CD4/FOXP3"), some (.num 50), some (.str "8F_morph")]
    ⟨[], [], [], []⟩
    ⟨[[some (.str "CD4/FOXP3"), some (.num 50), some (.str "8F_morph")]], [],
      [("morpheaform", "Sheet1_morpheaform",
        [headerRow ["Phenotype", "D", "Sample Name"],
          [some (.str "CD4/FOXP3"), some (.num 50), some (.str "8F_morph")]])],
      ["Sheet1_morpheaform"]⟩
    true "morpheaform" (by decide) rfl
  obtain ⟨nm, used', hun, hsubs, hused⟩ := h.2.2.1 (by decide)
  have hpin : nm = "Sheet1_morpheaform" ∧ used' = ["Sheet1_morpheaform"] := by
    have h2 : some (nm, used')
        = some ("Sheet1_morpheaform", ["Sheet1_morpheaform"]) :=
      hun.symm.trans (by decide)
    cases h2
    exact ⟨rfl, rfl⟩
  rw [hsubs, hpin.1]

/-- The workbook exhibiting the unguarded `row[sample_idx]` of source line
238: the target row is shorter than the resolved Sample Name index. -/
def wbShortRow : Workbook :=
  [("S",
    [[some (.str "Phenotype"), some (.str "D  istance edge micron"),
        some (.str "Sample Name")],
     [some (.str "CD4 FOXP3"), some (.num 50)]])]

/-- **C10 (failing evaluation).** On a sheet whose header has a Sample
Name column, a target row long enough to carry a distance but too short to
carry a sample cell makes PASS 2 raise an uncaught `IndexError`
(aborting the run), contrary to the claim that row processing never lets
an error escape the loop. -/
theorem short_row_sample_index_error :
    candidate_labels wbShortRow = ["CD4 FOXP3"] ∧
    pass2 wbShortRow (candidate_labels wbShortRow) = .error .indexErr :=
  ⟨rfl, rfl⟩

end StreamSafe
